import Mathlib

/- Verification development for the YouTube downloader orchestration service
   (Express transport `index.ts` plus the download core `download.ts`).

   The job store `activeDownloads : Map<string, DownloadProgress>` is modelled
   as its entry list in insertion order (JavaScript `Map` iteration order).
   Filesystem state is modelled as the list of paths that currently exist on
   disk.  Machine floats reaching the record's `progress` field are parsed
   decimal percentages; they are modelled exactly as rationals. -/

namespace YTD

/-- Job status values of the `status` field of `DownloadProgress`
    (source: `download.ts`, the `DownloadProgress` type alias). -/
inductive Status where
  | queued
  | downloading
  | processing
  | completed
  | error
deriving DecidableEq, Repr

/-- The `DownloadProgress` record stored in the `activeDownloads` map
    (source: `download.ts`). -/
structure DownloadProgress where
  videoId : String
  progress : Rat
  status : Status
  title : Option String := none
  message : Option String := none
  filePath : Option String := none
deriving DecidableEq, Repr

/-- The `activeDownloads` map, as its entry list in insertion order. -/
abbrev Store := List (String × DownloadProgress)

/-- Model of JavaScript `s.startsWith(p)`. -/
def strStartsWith (s p : String) : Bool :=
  p.data.isPrefixOf s.data

/-- Model of JavaScript `s.includes(sub)` on the character list. -/
def listIncludes (l sub : List Char) : Bool :=
  match l with
  | [] => sub.isEmpty
  | c :: rest => sub.isPrefixOf (c :: rest) || listIncludes rest sub

/-- Model of JavaScript `s.includes(sub)`. -/
def strIncludes (s sub : String) : Bool :=
  listIncludes s.data sub.data

/-- Model of `activeDownloads.get(id)`, returning the matching entry
    (first entry with exactly this key). -/
def mapGetEntry (m : Store) (k : String) : Option (String × DownloadProgress) :=
  match m with
  | [] => none
  | p :: rest => if p.1 == k then some p else mapGetEntry rest k

/-- Model of `activeDownloads.get(id)` (record only). -/
def mapGet (m : Store) (k : String) : Option DownloadProgress :=
  (mapGetEntry m k).map Prod.snd

/-- Model of `activeDownloads.set(k, r)`: replaces the value at an existing
    key in place, otherwise appends a new entry (JavaScript `Map.set`). -/
def storeSet (m : Store) (k : String) (r : DownloadProgress) : Store :=
  if (mapGetEntry m k).isSome then
    m.map (fun p => if p.1 == k then (k, r) else p)
  else m ++ [(k, r)]

/-- First `for` loop of `getDownloadProgress` (source: `download.ts`):
    first entry whose key starts with `id + '_'`. -/
def findKeyStartEntry (id : String) : Store → Option (String × DownloadProgress)
  | [] => none
  | p :: rest =>
    if strStartsWith p.1 (id ++ "_") then some p else findKeyStartEntry id rest

/-- Second `for` loop of `getDownloadProgress`: first entry whose record's
    `videoId` field equals `id`. -/
def findVideoIdEntry (id : String) : Store → Option (String × DownloadProgress)
  | [] => none
  | p :: rest =>
    if p.2.videoId == id then some p else findVideoIdEntry id rest

/-- `getDownloadProgress` (source: `download.ts`), resolved to the map entry:
    exact key lookup, then the key-starts-with scan, then the `videoId` field
    scan, in that order. -/
def getDownloadProgressEntry (m : Store) (id : String) :
    Option (String × DownloadProgress) :=
  match mapGetEntry m id with
  | some p => some p
  | none =>
    match findKeyStartEntry id m with
    | some p => some p
    | none => findVideoIdEntry id m

/-- `getDownloadProgress` as exported (record only). -/
def getDownloadProgress (m : Store) (id : String) : Option DownloadProgress :=
  (getDownloadProgressEntry m id).map Prod.snd

/-- `getAllDownloads` (source: `download.ts`): `Array.from(activeDownloads.values())`. -/
def getAllDownloads (m : Store) : List DownloadProgress :=
  m.map Prod.snd

/-- Filter predicate of the `existingDownloads` scan in `downloadFromUrl`:
    `data.videoId === videoId || id.startsWith(videoId + '_')`. -/
def jobMatches (v : String) (p : String × DownloadProgress) : Bool :=
  p.2.videoId == v || strStartsWith p.1 (v ++ "_")

/-- Predicate of the `completedDownload` search in `downloadFromUrl`:
    `status === 'completed' && progress === 100 && filePath`. -/
def reusableCompleted (d : DownloadProgress) : Bool :=
  d.status == Status.completed && d.progress == 100 && d.filePath.isSome

/-- Predicate of the `inProgressDownload` search in `downloadFromUrl`:
    `status === 'downloading' || status === 'processing'`. -/
def inFlight (d : DownloadProgress) : Bool :=
  d.status == Status.downloading || d.status == Status.processing

/-- The `existingDownloads` list built in `downloadFromUrl`. -/
def existingDownloads (m : Store) (v : String) : Store :=
  m.filter (jobMatches v)

/-- The `completedDownload` search in `downloadFromUrl`. -/
def completedDownload (m : Store) (v : String) :
    Option (String × DownloadProgress) :=
  (existingDownloads m v).find? (fun p => reusableCompleted p.2)

/-- The `inProgressDownload` search in `downloadFromUrl`. -/
def inProgressDownload (m : Store) (v : String) :
    Option (String × DownloadProgress) :=
  (existingDownloads m v).find? (fun p => inFlight p.2)

/-- Outcome of the dedup phase of `downloadFromUrl`: reuse an existing job id
    or fall through to creating a new record. -/
inductive DedupOutcome where
  | reuse (id : String)
  | create
deriving DecidableEq, Repr

/-- The dedup decision of `downloadFromUrl` (source: `download.ts`, the two
    early returns before the new record is created). -/
def downloadFromUrlDedup (m : Store) (v : String) : DedupOutcome :=
  match completedDownload m v with
  | some p => DedupOutcome.reuse p.1
  | none =>
    match inProgressDownload m v with
    | some p => DedupOutcome.reuse p.1
    | none => DedupOutcome.create

/-- The fresh job id built by `downloadFromUrl`:
    `playlist_<videoId>_<Date.now()>` or `<videoId>_<Date.now()>`. -/
def newDownloadId (v : String) (now : Nat) (playlist : Bool) : String :=
  if playlist then "playlist_" ++ v ++ "_" ++ toString now
  else v ++ "_" ++ toString now

/-- The record `downloadFromUrl` creates for a fresh job:
    `{videoId, progress: 0, status: 'processing', message: 'Getting video information'}`. -/
def initialRecord (v : String) : DownloadProgress :=
  { videoId := v
    progress := 0
    status := Status.processing
    message := some "Getting video information" }

/-- The id-returning front of `downloadFromUrl`: either reuse an existing
    job's id (store untouched) or create the fresh record. -/
def downloadFromUrlStart (m : Store) (v : String) (now : Nat) (playlist : Bool) :
    String × Store :=
  match downloadFromUrlDedup m v with
  | DedupOutcome.reuse j => (j, m)
  | DedupOutcome.create =>
    let id := newDownloadId v now playlist
    (id, storeSet m id (initialRecord v))

/-- Model of JavaScript `id.split('_')[0]`: the segment before the first
    underscore (the whole string when there is none). -/
def baseOf (id : String) : String :=
  String.mk (id.data.takeWhile (fun c => c ≠ '_'))

/-- Model of JavaScript `s.split('_')[1]`: the segment between the first and
    second underscore, `none` when the string has no underscore. -/
def segAfterFirst (s : String) : Option String :=
  match s.data.dropWhile (fun c => c ≠ '_') with
  | [] => none
  | _ :: tail => some (String.mk (tail.takeWhile (fun c => c ≠ '_')))

/-- Numeric value of a run of decimal digit characters. -/
def digitsVal (l : List Char) : Nat :=
  l.foldl (fun a c => a * 10 + (c.toNat - 48)) 0

/-- Model of JavaScript `parseInt` on the strings that occur here: the value
    of the leading digit run, `none` standing for `NaN`. -/
def parseIntJS (s : String) : Option Nat :=
  let ds := s.data.takeWhile (fun c => c.isDigit)
  if ds.isEmpty then none else some (digitsVal ds)

/-- `parseInt(videoId.split('_')[1] || '0')` from `deleteDownloadHandler`. -/
def tsField (videoId : String) : Option Nat :=
  let seg :=
    match segAfterFirst videoId with
    | none => "0"
    | some "" => "0"
    | some s => s
  parseIntJS seg

/-- JavaScript `currentTime > latestTime` where either side may be `NaN`
    (`none`): any comparison against `NaN` is false. -/
def jsGTts (current latest : Option Nat) : Bool :=
  match current, latest with
  | some c, some l => decide (l < c)
  | _, _ => false

/-- The `matchingDownloads.reduce(...)` step of `deleteDownloadHandler`:
    pick the record with the larger parsed timestamp, keeping the accumulator
    on ties or unparsable timestamps. -/
def mostRecentDownload (h : DownloadProgress) (t : List DownloadProgress) :
    DownloadProgress :=
  t.foldl
    (fun latest current =>
      if jsGTts (tsField current.videoId) (tsField latest.videoId) then current
      else latest)
    h

/-- Server-side mutable state: the `activeDownloads` map from `download.ts`,
    the separate `global.downloads` variable written by
    `deleteDownloadHandler` in `index.ts`, and the set of on-disk paths. -/
structure ServerState where
  active : Store
  globalDownloads : List DownloadProgress
  fs : List String
deriving DecidableEq, Repr

/-- Recursive removal of an on-disk artifact: the path itself and, when it is
    a directory, everything below it. -/
def deleteArtifact (fs : List String) (p : String) : List String :=
  fs.filter (fun q => !(q == p || strStartsWith q (p ++ "/")))

/-- The selection made by `deleteDownloadHandler` (source: `index.ts`):
    every record whose `videoId` starts with the base segment of the
    supplied id. -/
def matchingDownloads (m : Store) (id : String) : List DownloadProgress :=
  (getAllDownloads m).filter (fun d => strStartsWith d.videoId (baseOf id))

/-- Response of `deleteDownloadHandler` together with the state it leaves. -/
structure DeleteResponse where
  code : Nat
  state : ServerState
deriving DecidableEq, Repr

/-- `deleteDownloadHandler` (source: `index.ts`).  Note that the final bulk
    removal is the assignment `global.downloads = downloads.filter(...)`,
    which writes the separate global variable and leaves `activeDownloads`
    untouched. -/
def deleteDownloadHandler (s : ServerState) (id : String) : DeleteResponse :=
  if id = "" then ⟨400, s⟩
  else
    match matchingDownloads s.active id with
    | [] => ⟨404, s⟩
    | h :: t =>
      let target := mostRecentDownload h t
      let fs2 :=
        match target.filePath with
        | some p => if s.fs.contains p then deleteArtifact s.fs p else s.fs
        | none => s.fs
      let remaining := (getAllDownloads s.active).filter
        (fun d => !strStartsWith d.videoId (baseOf id))
      ⟨200, { active := s.active, globalDownloads := remaining, fs := fs2 }⟩

/-- Rendering of a `Status` value as the string stored in messages. -/
def statusStr : Status → String
  | Status.queued => "queued"
  | Status.downloading => "downloading"
  | Status.processing => "processing"
  | Status.completed => "completed"
  | Status.error => "error"

/-- Response of the `check` endpoint. -/
inductive CheckResp where
  | badRequest
  | json (fileExists : Bool) (reason : Option String)
deriving DecidableEq, Repr

/-- `checkFileHandler` (source: `index.ts`): the `GET /api/download/:id/check`
    route.  When a completed record's file is missing it mutates that record
    to `queued` with progress 0 and reports `{exists: false}`; the filesystem
    is never touched. -/
def checkFileHandler (s : ServerState) (id : String) : CheckResp × ServerState :=
  if id = "" then (CheckResp.badRequest, s)
  else
    match getDownloadProgressEntry s.active id with
    | none => (CheckResp.json false (some "Download not found"), s)
    | some (k, d) =>
      if d.status ≠ Status.completed then
        (CheckResp.json false (some ("Download status is " ++ statusStr d.status)), s)
      else
        match d.filePath with
        | none => (CheckResp.json false (some "File path not available"), s)
        | some fp =>
          if s.fs.contains fp then (CheckResp.json true none, s)
          else
            (CheckResp.json false (some "File needs to be re-downloaded"),
             { s with active :=
                storeSet s.active k { d with status := Status.queued, progress := 0 } })

/-- The downloads directory (`path.join(__dirname, "../downloads")`). -/
def outputDir : String := "downloads"

/-- JavaScript `a || b` on an optional string (empty string is falsy). -/
def jsStrOr (a : Option String) (b : String) : String :=
  match a with
  | some s => if s = "" then b else s
  | none => b

/-- `createDummyVideoFile` (source: `download.ts`): opens a write stream at
    the path (the file comes to exist) and fills it with sample or fallback
    content. -/
def createDummyVideoFile (fs : List String) (p : String) : List String :=
  if fs.contains p then fs else p :: fs

/-- `getDownloadFilePath` (source: `download.ts`): direct map lookup; for a
    completed record with a stored path it recreates a dummy file when the
    path is missing on disk; with no stored path it generates one, creates a
    dummy file there, and stores it back on the record. -/
def getDownloadFilePath (s : ServerState) (id : String) :
    Option String × ServerState :=
  match mapGet s.active id with
  | none => (none, s)
  | some d =>
    if d.status ≠ Status.completed then (none, s)
    else
      match d.filePath with
      | some fp =>
        if s.fs.contains fp then (some fp, s)
        else (some fp, { s with fs := createDummyVideoFile s.fs fp })
      | none =>
        let fp := outputDir ++ "/" ++ jsStrOr d.title d.videoId ++ ".mp4"
        let s1 :=
          if s.fs.contains fp then s
          else { s with fs := createDummyVideoFile s.fs fp }
        (some fp,
         { s1 with active := storeSet s1.active id { d with filePath := some fp } })

/-- A `\s` whitespace character as matched by the progress expression. -/
def isWSChar (c : Char) : Bool :=
  c == ' ' || c == '\t' || c == '\n' || c == '\r'

/-- JavaScript `Math.min` on the rationals that occur here, written with the
    executable comparison `Rat.blt` so that it evaluates inside the kernel. -/
def jsMin (a b : Rat) : Rat :=
  if Rat.blt a b then a else b

/-- After a `[download]` marker: match `\s+(\d+\.?\d*)%` and return the
    parsed decimal value. -/
def matchPercentAfter (l : List Char) : Option Rat :=
  let ws := l.takeWhile isWSChar
  if ws.isEmpty then none
  else
    let rest := l.drop ws.length
    let ipart := rest.takeWhile (fun c => c.isDigit)
    if ipart.isEmpty then none
    else
      let rest2 := rest.drop ipart.length
      match rest2 with
      | '%' :: _ => some (mkRat (digitsVal ipart) 1)
      | '.' :: rest3 =>
        let fpart := rest3.takeWhile (fun c => c.isDigit)
        match rest3.drop fpart.length with
        | '%' :: _ =>
          some (mkRat (digitsVal ipart * 10 ^ fpart.length + digitsVal fpart)
            (10 ^ fpart.length))
        | _ => none
      | _ => none

/-- Scan of `output.match(/\[download\]\s+(\d+\.?\d*)%/)`: at each position
    try the `[download]` marker followed by the percentage. -/
def scanProgress : List Char → Option Rat
  | [] => none
  | c :: rest =>
    if "[download]".data.isPrefixOf (c :: rest) then
      match matchPercentAfter ((c :: rest).drop 10) with
      | some v => some v
      | none => scanProgress rest
    else scanProgress rest

/-- The progress percentage parsed from one stdout chunk. -/
def parseProgressOut (out : String) : Option Rat :=
  scanProgress out.data

/-- Decimal rendering with one fraction digit, as `progress.toFixed(1)`
    (half-up rounding; the parsed inputs here are exact decimals). -/
def toFixed1 (q : Rat) : String :=
  let n : Int := Rat.floor (q * 10 + 1 / 2)
  toString (n / 10) ++ "." ++ toString (n % 10)

/-- The state-relevant part of the `downloadProcess.stdout.on('data')`
    handler (source: `download.ts`): the parsed percentage is stored clamped
    with `Math.min(progress, 99)`, and a `[Merger]` marker overwrites the
    message. -/
def applyStdoutChunk (r : DownloadProgress) (out : String) : DownloadProgress :=
  let r1 :=
    match parseProgressOut out with
    | some p =>
      { r with progress := jsMin p 99
               message := some ("Downloading: " ++ toFixed1 p ++ "%") }
    | none => r
  if strIncludes out "[Merger]" then
    { r1 with message := some "Merging video and audio..." }
  else r1

/-- The title update of `downloadFromUrl` after the info command. -/
def withTitle (r : DownloadProgress) (t : String) : DownloadProgress :=
  { r with title := some t, message := some ("Starting download: " ++ t) }

/-- The update of `downloadFromUrl` just before spawning: status becomes
    `downloading` and the destination path is stored. -/
def startDownloading (r : DownloadProgress) (fp : String) : DownloadProgress :=
  { r with status := Status.downloading
           message := some "Download in progress"
           filePath := some fp }

/-- The completion update after a zero exit code and the quality probe. -/
def completeRecord (r : DownloadProgress) (actualQuality : String)
    (qualityMatch : Bool) : DownloadProgress :=
  { r with status := Status.completed
           progress := 100
           message := some ("✅ Download completed (" ++ actualQuality ++ ") " ++
             (if qualityMatch then "- Exact Quality Match" else "- Quality Mismatch")) }

/-- The catch-block update of `downloadFromUrl` on failure. -/
def errorRecord (r : DownloadProgress) (msg : String) : DownloadProgress :=
  { r with status := Status.error, message := some msg }

/-- The read-repair reset performed by `checkFileHandler` and
    `serveFileHandler` when the stored file is missing. -/
def requeueRecord (r : DownloadProgress) : DownloadProgress :=
  { r with status := Status.queued, progress := 0 }

/-- Successive record values stored while folding the stdout chunks. -/
def lineStates (r : DownloadProgress) : List String → List DownloadProgress
  | [] => []
  | out :: rest =>
    applyStdoutChunk r out :: lineStates (applyStdoutChunk r out) rest

/-- How the single spawned subprocess ends. -/
inductive ExitOutcome where
  | exited (code : Int)
  | timedOut
deriving DecidableEq, Repr

/-- The record state just before the subprocess is spawned: created, title
    resolved, status `downloading` with the destination path stored. -/
def preSpawn (v title fp : String) : DownloadProgress :=
  startDownloading (withTitle (initialRecord v) title) fp

/-- The final stored record once the subprocess settles.  When the retries
    are exhausted the thrown error is the last attempt's failure, which is
    the 600s timeout of waiting on the already closed process (see
    `attemptResult`). -/
def finalRecordOf (rLast : DownloadProgress) (exit : ExitOutcome)
    (aq : String) (qm : Bool) : DownloadProgress :=
  match exit with
  | ExitOutcome.exited c =>
    if c = 0 then completeRecord rLast aq qm
    else errorRecord rLast "Download timeout"
  | ExitOutcome.timedOut => errorRecord rLast "Download timeout"

/-- The successive values stored in the job's record over one
    `downloadFromUrl` run: creation, title, the pre-spawn `downloading`
    update, one state per stdout chunk, and the final completion or error
    state. -/
def recordStates (v title fp : String) (chunks : List String)
    (exit : ExitOutcome) (aq : String) (qm : Bool) : List DownloadProgress :=
  initialRecord v :: withTitle (initialRecord v) title :: preSpawn v title fp ::
    (lineStates (preSpawn v title fp) chunks ++
      [finalRecordOf ((lineStates (preSpawn v title fp) chunks).getLastD
        (preSpawn v title fp)) exit aq qm])

/-- One record mutation as the source performs it.  None of the write sites
    checks the record's current status (the close handler and the catch
    block spread whatever record is stored at that moment), so no
    constructor carries a status guard; the only guard is the stored-path
    check that both read-repair sites really perform (`serveFileHandler`
    returns early without a `filePath`; `checkFileHandler` additionally
    requires `completed`, a special case of this relation). -/
inductive RecStep : DownloadProgress → DownloadProgress → Prop where
  | title (r : DownloadProgress) (t : String) : RecStep r (withTitle r t)
  | start (r : DownloadProgress) (fp : String) :
      RecStep r (startDownloading r fp)
  | chunk (r : DownloadProgress) (out : String) :
      RecStep r (applyStdoutChunk r out)
  | complete (r : DownloadProgress) (aq : String) (qm : Bool) :
      RecStep r (completeRecord r aq qm)
  | fail (r : DownloadProgress) (msg : String) :
      RecStep r (errorRecord r msg)
  | repair (r : DownloadProgress) :
      r.filePath.isSome = true → RecStep r (requeueRecord r)

/-- Consecutive status pairs along one `downloadFromUrl` run trace with no
    interleaved read-repair: unchanged, `processing` to `downloading` at the
    pre-spawn update, or `downloading` to `completed`/`error` at the end. -/
def seqPair (a b : Status) : Prop :=
  a = b ∨
  (a = Status.processing ∧ b = Status.downloading) ∨
  (a = Status.downloading ∧ (b = Status.completed ∨ b = Status.error))

/-- Success or a thrown error message. -/
inductive RunResult where
  | ok
  | failed (msg : String)
deriving DecidableEq, Repr

/-- Observable result of one pass through the retry loop. -/
structure RetryRun where
  launches : Nat
  waits : List Nat
  result : RunResult
deriving DecidableEq, Repr

/-- What one `await new Promise(...)` attempt observes.  The subprocess is
    spawned once, before the loop; the first attempt sees its `close` event.
    Later attempts attach fresh listeners to the already closed process, so
    the only event they can see is their own 600s timeout. -/
def attemptResult (exit : ExitOutcome) (attemptIdx : Nat) : RunResult :=
  if attemptIdx = 0 then
    match exit with
    | ExitOutcome.exited c =>
      if c = 0 then RunResult.ok
      else RunResult.failed ("Download failed with code " ++ toString c)
    | ExitOutcome.timedOut => RunResult.failed "Download timeout"
  else RunResult.failed "Download timeout"

/-- The `while (retryCount < maxRetries)` loop of `downloadFromUrl`,
    structurally recursive on the remaining iteration count
    `maxRetries - retryCount`.  A delay is recorded only when another
    attempt follows; the launch count stays at the single pre-loop spawn. -/
def retryLoopAux (exit : ExitOutcome) :
    Nat → Nat → Nat → List Nat → RetryRun
  | 0, _, _, acc => ⟨1, acc, RunResult.ok⟩
  | remaining + 1, retryCount, retryDelay, acc =>
    match attemptResult exit retryCount with
    | RunResult.ok => ⟨1, acc, RunResult.ok⟩
    | RunResult.failed e =>
      if remaining = 0 then ⟨1, acc, RunResult.failed e⟩
      else retryLoopAux exit remaining (retryCount + 1) (retryDelay * 2)
        (acc ++ [retryDelay])

/-- The full retry phase: `maxRetries = 3`, initial delay 5000ms, doubling. -/
def downloadAttemptRun (exit : ExitOutcome) : RetryRun :=
  retryLoopAux exit 3 0 5000 []

/-- The record value after the retry phase settles. -/
def runFinalRecord (r : DownloadProgress) (exit : ExitOutcome) (aq : String)
    (qm : Bool) : DownloadProgress :=
  match (downloadAttemptRun exit).result with
  | RunResult.ok => completeRecord r aq qm
  | RunResult.failed e => errorRecord r e

/-- Ordered observable actions of the `POST /api/download` transport
    handler. -/
inductive HttpAction where
  | spawned
  | processClosed (code : Int)
  | slept (ms : Nat)
  | jsonResponse (downloadId : String)
  | errorResponse (status : Nat) (msg : String)
deriving DecidableEq, Repr

/-- The actions performed inside `downloadFromUrl` before it settles. -/
def downloadFromUrlActions (exit : ExitOutcome) : List HttpAction :=
  HttpAction.spawned ::
    ((match exit with
      | ExitOutcome.exited c => [HttpAction.processClosed c]
      | ExitOutcome.timedOut => ([] : List HttpAction)) ++
     (downloadAttemptRun exit).waits.map HttpAction.slept)

/-- `downloadHandler` (source: `index.ts`): validates the url, then awaits
    `downloadFromUrl` to the end before responding; a failure thrown out of
    the core is forwarded as an HTTP 500. -/
def downloadHandler (url : Option String) (newId : String)
    (exit : ExitOutcome) : List HttpAction :=
  match url with
  | none => [HttpAction.errorResponse 400 "YouTube URL is required"]
  | some _ =>
    match (downloadAttemptRun exit).result with
    | RunResult.ok => downloadFromUrlActions exit ++ [HttpAction.jsonResponse newId]
    | RunResult.failed e =>
      downloadFromUrlActions exit ++ [HttpAction.errorResponse 500 e]

/- Concrete fixtures used by the witness and counterexample theorems. -/

/-- A stored completed job used by the dedup witness. -/
def c1Rec : DownloadProgress :=
  { videoId := "abc12345678"
    progress := 100
    status := Status.completed
    filePath := some "downloads/a.mp4" }

/-- A one-job store for the dedup witness. -/
def c1Store : Store := [("abc12345678_1", c1Rec)]

/-- A stored completed job whose artifact is on disk. -/
def c2Rec : DownloadProgress :=
  { videoId := "abc12345678"
    progress := 100
    status := Status.completed
    filePath := some "downloads/v.mp4" }

/-- Server state for the deletion evaluation. -/
def c2State : ServerState :=
  { active := [("abc12345678_50", c2Rec)]
    globalDownloads := []
    fs := ["downloads/v.mp4"] }

/-- A completed job whose stored path is absent from disk. -/
def c4Rec : DownloadProgress :=
  { videoId := "abc12345678"
    progress := 100
    status := Status.completed
    title := some "T"
    filePath := some "downloads/T.mp4" }

/-- Server state for the read-repair evaluation: the artifact is missing. -/
def c4State : ServerState :=
  { active := [("abc12345678_1", c4Rec)]
    globalDownloads := []
    fs := [] }

/-- The record just before stdout folding in the progress counterexample. -/
def c8Start : DownloadProgress :=
  preSpawn "abc12345678" "T" "downloads/T.mp4"

/-- A mid-download record used by the retry-phase evaluation. -/
def c3Start : DownloadProgress :=
  preSpawn "qqq11111111" "Q" "downloads/Q.mp4"

/-- First synthetic-id job for the deletion-by-base-segment witness. -/
def c10r1 : DownloadProgress :=
  { videoId := "video_100", progress := 50, status := Status.downloading }

/-- Second synthetic-id job, distinct video identity. -/
def c10r2 : DownloadProgress :=
  { videoId := "video_200"
    progress := 100
    status := Status.completed
    filePath := some "downloads/b.mp4" }

/-- Server state with two distinct synthetic-id jobs. -/
def c10State : ServerState :=
  { active := [("video_100_1", c10r1), ("video_200_2", c10r2)]
    globalDownloads := []
    fs := [] }

/- Helper lemmas shared by the claim theorems. -/

theorem mapGetEntry_eq_find (m : Store) (k : String) :
    mapGetEntry m k = m.find? (fun p => p.1 == k) := by
  induction m with
  | nil => rfl
  | cons p rest ih =>
    rw [mapGetEntry, List.find?_cons]
    cases h : p.1 == k <;> simp [h, ih]

theorem findKeyStartEntry_eq_find (m : Store) (id : String) :
    findKeyStartEntry id m = m.find? (fun p => strStartsWith p.1 (id ++ "_")) := by
  induction m with
  | nil => rfl
  | cons p rest ih =>
    rw [findKeyStartEntry, List.find?_cons]
    cases h : strStartsWith p.1 (id ++ "_") <;> simp [h, ih]

theorem findVideoIdEntry_eq_find (m : Store) (id : String) :
    findVideoIdEntry id m = m.find? (fun p => p.2.videoId == id) := by
  induction m with
  | nil => rfl
  | cons p rest ih =>
    rw [findVideoIdEntry, List.find?_cons]
    cases h : p.2.videoId == id <;> simp [h, ih]

/-- C5: the job-store lookup resolves in exactly this order: exact key match
    first, then the first record whose key starts with the id followed by the
    underscore separator, then the first record whose `videoId` field equals
    the id; the first match is returned, and when no mode matches the lookup
    returns `none` (not found) rather than failing. -/
theorem getDownloadProgress_resolution_order (m : Store) (id : String) :
    (getDownloadProgress m id =
      Option.orElse ((m.find? (fun p => p.1 == id)).map Prod.snd)
        (fun _ => Option.orElse
          ((m.find? (fun p => strStartsWith p.1 (id ++ "_"))).map Prod.snd)
          (fun _ => (m.find? (fun p => p.2.videoId == id)).map Prod.snd))) ∧
    (getDownloadProgress m id = none ↔
      ∀ p ∈ m, (p.1 == id) = false ∧ strStartsWith p.1 (id ++ "_") = false ∧
        (p.2.videoId == id) = false) := by
  have hmain : getDownloadProgressEntry m id =
      Option.orElse (m.find? (fun p => p.1 == id))
        (fun _ => Option.orElse (m.find? (fun p => strStartsWith p.1 (id ++ "_")))
          (fun _ => m.find? (fun p => p.2.videoId == id))) := by
    unfold getDownloadProgressEntry
    rw [mapGetEntry_eq_find, findKeyStartEntry_eq_find, findVideoIdEntry_eq_find]
    cases m.find? (fun p => p.1 == id) <;>
      cases m.find? (fun p => strStartsWith p.1 (id ++ "_")) <;>
        simp [Option.orElse]
  constructor
  · show (getDownloadProgressEntry m id).map Prod.snd = _
    rw [hmain]
    cases m.find? (fun p => p.1 == id) <;>
      cases m.find? (fun p => strStartsWith p.1 (id ++ "_")) <;>
        simp [Option.orElse]
  · have hn : getDownloadProgress m id = none ↔
        (m.find? (fun p => p.1 == id) = none ∧
         m.find? (fun p => strStartsWith p.1 (id ++ "_")) = none ∧
         m.find? (fun p => p.2.videoId == id) = none) := by
      show (getDownloadProgressEntry m id).map Prod.snd = none ↔ _
      rw [hmain]
      cases m.find? (fun p => p.1 == id) <;>
        cases m.find? (fun p => strStartsWith p.1 (id ++ "_")) <;>
          cases m.find? (fun p => p.2.videoId == id) <;>
            simp [Option.orElse]
    rw [hn]
    simp only [List.find?_eq_none, Bool.not_eq_true]
    constructor
    · rintro ⟨ha, hb, hc⟩ p hp
      exact ⟨ha p hp, hb p hp, hc p hp⟩
    · intro h
      exact ⟨fun p hp => (h p hp).1, fun p hp => (h p hp).2.1,
        fun p hp => (h p hp).2.2⟩

/-- Witness for the resolution-order theorem at a concrete store. -/
theorem getDownloadProgress_resolution_order_witness :
    getDownloadProgress c1Store "zzz" = none :=
  (getDownloadProgress_resolution_order c1Store "zzz").2.mpr (by decide)

/-- C1: for every request whose resolved `videoId` already has a stored job,
    `downloadFromUrl` returns the existing job's id instead of creating a new
    record, preferring a `completed` job with `progress == 100` and a present
    `filePath` over any other, and otherwise a job whose status is
    `downloading` or `processing`; only when neither exists is a new job
    record created. -/
theorem downloadFromUrl_dedup_correct (m : Store) (v : String) (now : Nat)
    (playlist : Bool) :
    (∀ j, downloadFromUrlDedup m v = DedupOutcome.reuse j →
      downloadFromUrlStart m v now playlist = (j, m) ∧
      ∃ r, (j, r) ∈ m ∧ jobMatches v (j, r) = true ∧
        (reusableCompleted r = true ∨
          (inFlight r = true ∧
            ∀ p ∈ m, jobMatches v p = true → reusableCompleted p.2 = false))) ∧
    (downloadFromUrlDedup m v = DedupOutcome.create ↔
      ∀ p ∈ m, jobMatches v p = true →
        reusableCompleted p.2 = false ∧ inFlight p.2 = false) ∧
    (downloadFromUrlDedup m v = DedupOutcome.create →
      downloadFromUrlStart m v now playlist =
        (newDownloadId v now playlist,
         storeSet m (newDownloadId v now playlist) (initialRecord v))) := by
  rcases hc : completedDownload m v with _ | ⟨j0, r0⟩
  · rcases hp : inProgressDownload m v with _ | ⟨j1, r1⟩
    · have hd : downloadFromUrlDedup m v = DedupOutcome.create := by
        unfold downloadFromUrlDedup
        rw [hc, hp]
      have hnoc : ∀ p ∈ m, jobMatches v p = true → reusableCompleted p.2 = false := by
        intro p hpm hpj
        have := List.find?_eq_none.mp hc p
          (List.mem_filter.mpr ⟨hpm, hpj⟩)
        simpa using this
      have hnop : ∀ p ∈ m, jobMatches v p = true → inFlight p.2 = false := by
        intro p hpm hpj
        have := List.find?_eq_none.mp hp p
          (List.mem_filter.mpr ⟨hpm, hpj⟩)
        simpa using this
      refine ⟨?_, ?_, ?_⟩
      · intro j hj
        rw [hd] at hj
        exact absurd hj (by simp)
      · rw [hd]
        exact ⟨fun _ p hpm hpj => ⟨hnoc p hpm hpj, hnop p hpm hpj⟩, fun _ => rfl⟩
      · intro _
        unfold downloadFromUrlStart
        rw [hd]
    · have hd : downloadFromUrlDedup m v = DedupOutcome.reuse j1 := by
        unfold downloadFromUrlDedup
        rw [hc, hp]
      have hmem : (j1, r1) ∈ existingDownloads m v := List.mem_of_find?_eq_some hp
      have hmem2 := List.mem_filter.mp hmem
      have hfl : inFlight r1 = true := by simpa using List.find?_some hp
      have hnoc : ∀ p ∈ m, jobMatches v p = true → reusableCompleted p.2 = false := by
        intro p hpm hpj
        have := List.find?_eq_none.mp hc p (List.mem_filter.mpr ⟨hpm, hpj⟩)
        simpa using this
      refine ⟨?_, ?_, ?_⟩
      · intro j hj
        rw [hd] at hj
        cases hj
        constructor
        · unfold downloadFromUrlStart
          rw [hd]
        · exact ⟨r1, hmem2.1, hmem2.2, Or.inr ⟨hfl, hnoc⟩⟩
      · rw [hd]
        constructor
        · intro h
          exact absurd h (by simp)
        · intro h
          exact absurd (h (j1, r1) hmem2.1 hmem2.2).2 (by simp [hfl])
      · intro h
        rw [hd] at h
        exact absurd h (by simp)
  · have hd : downloadFromUrlDedup m v = DedupOutcome.reuse j0 := by
      unfold downloadFromUrlDedup
      rw [hc]
    have hmem : (j0, r0) ∈ existingDownloads m v := List.mem_of_find?_eq_some hc
    have hmem2 := List.mem_filter.mp hmem
    have hrc : reusableCompleted r0 = true := by simpa using List.find?_some hc
    refine ⟨?_, ?_, ?_⟩
    · intro j hj
      rw [hd] at hj
      cases hj
      constructor
      · unfold downloadFromUrlStart
        rw [hd]
      · exact ⟨r0, hmem2.1, hmem2.2, Or.inl hrc⟩
    · rw [hd]
      constructor
      · intro h
        exact absurd h (by simp)
      · intro h
        exact absurd (h (j0, r0) hmem2.1 hmem2.2).1 (by simp [hrc])
    · intro h
      rw [hd] at h
      exact absurd h (by simp)

/-- Witness for the dedup theorem: a stored completed job is reused. -/
theorem downloadFromUrl_dedup_correct_witness :
    downloadFromUrlStart c1Store "abc12345678" 7 false = ("abc12345678_1", c1Store) :=
  ((downloadFromUrl_dedup_correct c1Store "abc12345678" 7 false).1
    "abc12345678_1" (by decide)).1

/-- A string of the form `"video_" ++ t` starts with `"video"`. -/
theorem strStartsWith_video_underscore (t : String) :
    strStartsWith ("video_" ++ t) "video" = true := by
  unfold strStartsWith
  rw [List.isPrefixOf_iff_prefix, String.data_append]
  have h : "video_".data = "video".data ++ ['_'] := rfl
  rw [h, List.append_assoc]
  exact List.prefix_append _ _

/-- C2 evaluation: `deleteDownloadHandler` answers 200 "deleted" for a stored
    job, removes the on-disk artifact, but assigns the filtered list to the
    separate `global.downloads` variable, so the record is still present in
    the `activeDownloads` store and a subsequent lookup still finds it. -/
theorem delete_leaves_active_store :
    (deleteDownloadHandler c2State "abc12345678_50").code = 200 ∧
    getDownloadProgress (deleteDownloadHandler c2State "abc12345678_50").state.active
      "abc12345678_50" = some c2Rec ∧
    getAllDownloads (deleteDownloadHandler c2State "abc12345678_50").state.active =
      [c2Rec] ∧
    (deleteDownloadHandler c2State "abc12345678_50").state.fs = [] ∧
    (deleteDownloadHandler c2State "zzzzzzzzzzz_1").code = 404 := by decide

/-- C10: the deletion operation matches records by the base segment of the
    id, not by equal video identity: every record whose synthetic `videoId`
    has the form `video_<timestamp>` is selected by a delete aimed at any id
    whose base segment is `video`, and ends up removed from the filtered
    list the handler writes back. -/
theorem delete_selects_by_base_segment (s : ServerState) (id t : String)
    (r : DownloadProgress)
    (hbase : baseOf id = "video")
    (hr : r ∈ getAllDownloads s.active)
    (hv : r.videoId = "video_" ++ t) :
    r ∈ matchingDownloads s.active id ∧
    (deleteDownloadHandler s id).code = 200 ∧
    r ∉ (deleteDownloadHandler s id).state.globalDownloads := by
  have hsw : strStartsWith r.videoId (baseOf id) = true := by
    rw [hbase, hv]
    exact strStartsWith_video_underscore t
  have hmem : r ∈ matchingDownloads s.active id :=
    List.mem_filter.mpr ⟨hr, hsw⟩
  have hne : id ≠ "" := by
    intro h
    rw [h] at hbase
    exact absurd hbase (by decide)
  refine ⟨hmem, ?_, ?_⟩
  · unfold deleteDownloadHandler
    rw [if_neg hne]
    rcases hm : matchingDownloads s.active id with _ | ⟨h0, t0⟩
    · rw [hm] at hmem
      exact absurd hmem (by simp)
    · rfl
  · unfold deleteDownloadHandler
    rw [if_neg hne]
    rcases hm : matchingDownloads s.active id with _ | ⟨h0, t0⟩
    · rw [hm] at hmem
      exact absurd hmem (by simp)
    · intro hcontra
      have := (List.mem_filter.mp hcontra).2
      rw [hsw] at this
      exact absurd this (by simp)

/-- Witness for the base-segment deletion theorem: deleting the job with
    synthetic id `video_100` also sweeps up the distinct job `video_200`. -/
theorem delete_selects_by_base_segment_witness :
    c10r2 ∈ matchingDownloads c10State.active "video_100_1" ∧
    (deleteDownloadHandler c10State "video_100_1").code = 200 ∧
    c10r2 ∉ (deleteDownloadHandler c10State "video_100_1").state.globalDownloads :=
  delete_selects_by_base_segment c10State "video_100_1" "200" c10r2
    (by decide) (by decide) (by decide)

/-- C4 evaluation: for a `completed` job whose stored file is missing, the
    `check` endpoint conforms to the claim (reports `{exists: false}`,
    re-queues the record with progress 0, touches no file), but
    `getDownloadFilePath` violates it: it fabricates a substitute file at the
    stored `filePath` and returns the path with the record still
    `completed`. -/
theorem getDownloadFilePath_fabricates :
    (checkFileHandler c4State "abc12345678_1").1 =
      CheckResp.json false (some "File needs to be re-downloaded") ∧
    mapGet (checkFileHandler c4State "abc12345678_1").2.active "abc12345678_1" =
      some { c4Rec with status := Status.queued, progress := 0 } ∧
    (checkFileHandler c4State "abc12345678_1").2.fs = [] ∧
    (getDownloadFilePath c4State "abc12345678_1").1 = some "downloads/T.mp4" ∧
    (getDownloadFilePath c4State "abc12345678_1").2.fs = ["downloads/T.mp4"] ∧
    mapGet (getDownloadFilePath c4State "abc12345678_1").2.active "abc12345678_1" =
      some c4Rec := by decide

/-- The executable comparison agrees with the order on the rationals. -/
theorem blt_true_iff (a b : Rat) : Rat.blt a b = true ↔ a < b := Iff.rfl

/-- `jsMin` is bounded by its left argument. -/
theorem jsMin_le_left (a b : Rat) : jsMin a b ≤ a := by
  rw [jsMin]
  rcases h : Rat.blt a b with _ | _
  · have hnl : ¬ a < b := fun hc => by
      rw [← blt_true_iff, h] at hc
      exact absurd hc (by simp)
    simpa [h] using le_of_not_lt hnl
  · simp [h]

/-- `jsMin` is bounded by its right argument. -/
theorem jsMin_le_right (a b : Rat) : jsMin a b ≤ b := by
  rw [jsMin]
  rcases h : Rat.blt a b with _ | _
  · simp [h]
  · have hl : a < b := blt_true_iff a b |>.mp h
    simpa [h] using le_of_lt hl

/-- A common lower bound is below `jsMin`. -/
theorem le_jsMin {c a b : Rat} (h1 : c ≤ a) (h2 : c ≤ b) : c ≤ jsMin a b := by
  rw [jsMin]
  rcases h : Rat.blt a b with _ | _ <;> simp [h, h1, h2]

/-- A stdout chunk never changes the record's status. -/
theorem applyStdoutChunk_status (r : DownloadProgress) (out : String) :
    (applyStdoutChunk r out).status = r.status := by
  unfold applyStdoutChunk
  rcases hp : parseProgressOut out with _ | p <;>
    rcases hm : strIncludes out "[Merger]" <;> simp [hp, hm]

/-- A stdout chunk never changes the record's stored file path. -/
theorem applyStdoutChunk_filePath (r : DownloadProgress) (out : String) :
    (applyStdoutChunk r out).filePath = r.filePath := by
  unfold applyStdoutChunk
  rcases hp : parseProgressOut out with _ | p <;>
    rcases hm : strIncludes out "[Merger]" <;> simp [hp, hm]

/-- A stdout chunk stores the parsed percentage clamped with
    `Math.min(progress, 99)`, and leaves progress alone otherwise. -/
theorem applyStdoutChunk_progress (r : DownloadProgress) (out : String) :
    (applyStdoutChunk r out).progress =
      match parseProgressOut out with
      | some p => jsMin p 99
      | none => r.progress := by
  unfold applyStdoutChunk
  rcases hp : parseProgressOut out with _ | p <;>
    rcases hm : strIncludes out "[Merger]" <;> simp [hp, hm]

/-- Invariant preserved while folding stdout chunks: progress stays at most
    99, status stays `downloading`, and the stored path is unchanged. -/
theorem lineStates_inv (fp : String) :
    ∀ (chunks : List String) (r : DownloadProgress),
      r.progress ≤ 99 → r.status = Status.downloading → r.filePath = some fp →
      ∀ s ∈ lineStates r chunks,
        s.progress ≤ 99 ∧ s.status = Status.downloading ∧ s.filePath = some fp := by
  intro chunks
  induction chunks with
  | nil =>
    intro r _ _ _ s hs
    simp [lineStates] at hs
  | cons c cs ih =>
    intro r hp hst hfp s hs
    have hp2 : (applyStdoutChunk r c).progress ≤ 99 := by
      rw [applyStdoutChunk_progress]
      rcases h : parseProgressOut c with _ | p
      · exact hp
      · exact jsMin_le_right _ _
    have hst2 : (applyStdoutChunk r c).status = Status.downloading := by
      rw [applyStdoutChunk_status]; exact hst
    have hfp2 : (applyStdoutChunk r c).filePath = some fp := by
      rw [applyStdoutChunk_filePath]; exact hfp
    rw [lineStates] at hs
    rcases List.mem_cons.mp hs with h | h
    · subst h
      exact ⟨hp2, hst2, hfp2⟩
    · exact ih (applyStdoutChunk r c) hp2 hst2 hfp2 s h

/-- C6: over a `downloadFromUrl` run, a progress update derived from a parsed
    percentage line sets progress to at most 99 (and keeps `downloading`),
    progress reaches 100 only together with the `completed` transition after
    a verified zero exit code, and whenever the status is `completed` the
    record has `progress == 100` and a stored `filePath`. -/
theorem progress_clamp_completed_invariant (v title fp : String)
    (chunks : List String) (exit : ExitOutcome) (aq : String) (qm : Bool) :
    (∀ s ∈ lineStates (preSpawn v title fp) chunks,
        s.progress ≤ 99 ∧ s.status = Status.downloading) ∧
    (∀ s ∈ recordStates v title fp chunks exit aq qm,
        (s.status = Status.completed →
          s.progress = 100 ∧ s.filePath.isSome = true ∧
            exit = ExitOutcome.exited 0) ∧
        (s.progress = 100 → s.status = Status.completed)) := by
  have hpre_p : (preSpawn v title fp).progress = 0 := rfl
  have hpre_st : (preSpawn v title fp).status = Status.downloading := rfl
  have hpre_fp : (preSpawn v title fp).filePath = some fp := rfl
  have inv := lineStates_inv fp chunks (preSpawn v title fp)
    (by rw [hpre_p]; norm_num) hpre_st hpre_fp
  have hlast : ((lineStates (preSpawn v title fp) chunks).getLastD
      (preSpawn v title fp)).progress ≤ 99 ∧
      ((lineStates (preSpawn v title fp) chunks).getLastD
        (preSpawn v title fp)).filePath = some fp := by
    rcases List.mem_cons.mp
        (List.getLastD_mem_cons (lineStates (preSpawn v title fp) chunks)
          (preSpawn v title fp)) with h | h
    · rw [h, hpre_p, hpre_fp]
      exact ⟨by norm_num, rfl⟩
    · exact ⟨(inv _ h).1, (inv _ h).2.2⟩
  constructor
  · intro s hs
    exact ⟨(inv s hs).1, (inv s hs).2.1⟩
  · intro s hs
    rw [recordStates] at hs
    rcases List.mem_cons.mp hs with h0 | hs
    · subst h0
      refine ⟨fun h => absurd h (by simp [initialRecord]), fun h => ?_⟩
      exact absurd h (by norm_num [initialRecord])
    rcases List.mem_cons.mp hs with h1 | hs
    · subst h1
      refine ⟨fun h => absurd h (by simp [withTitle, initialRecord]), fun h => ?_⟩
      exact absurd h (by norm_num [withTitle, initialRecord])
    rcases List.mem_cons.mp hs with h2 | hs
    · subst h2
      refine ⟨fun h => absurd h (by simp [preSpawn, startDownloading]), fun h => ?_⟩
      exact absurd h (by norm_num [hpre_p] at h)
    rcases List.mem_append.mp hs with h | h
    · refine ⟨fun hc => absurd ((inv s h).2.1.symm.trans hc) (by simp), fun hp => ?_⟩
      have := (inv s h).1
      rw [hp] at this
      exact absurd this (by norm_num)
    · have hfin : s = finalRecordOf ((lineStates (preSpawn v title fp) chunks).getLastD
          (preSpawn v title fp)) exit aq qm := by
        simpa using h
      subst hfin
      rcases exit with c | _
      · rcases hc0 : c == 0 with _ | _
        · have hcne : ¬ c = 0 := by simpa using hc0
          have he : finalRecordOf ((lineStates (preSpawn v title fp) chunks).getLastD
              (preSpawn v title fp)) (ExitOutcome.exited c) aq qm =
              errorRecord ((lineStates (preSpawn v title fp) chunks).getLastD
                (preSpawn v title fp)) "Download timeout" := by
            rw [finalRecordOf, if_neg hcne]
          rw [he]
          refine ⟨fun h => absurd h (by simp [errorRecord]), fun hp => ?_⟩
          have h99 := hlast.1
          have : ((lineStates (preSpawn v title fp) chunks).getLastD
              (preSpawn v title fp)).progress = 100 := by
            simpa [errorRecord] using hp
          rw [this] at h99
          exact absurd h99 (by norm_num)
        · have hc0' : c = 0 := by simpa using hc0
          subst hc0'
          have he : finalRecordOf ((lineStates (preSpawn v title fp) chunks).getLastD
              (preSpawn v title fp)) (ExitOutcome.exited 0) aq qm =
              completeRecord ((lineStates (preSpawn v title fp) chunks).getLastD
                (preSpawn v title fp)) aq qm := by
            rw [finalRecordOf, if_pos rfl]
          rw [he]
          refine ⟨fun _ => ⟨by simp [completeRecord], ?_, rfl⟩,
            fun _ => by simp [completeRecord]⟩
          have hfp2 : (completeRecord ((lineStates (preSpawn v title fp) chunks).getLastD
              (preSpawn v title fp)) aq qm).filePath = some fp := hlast.2
          rw [hfp2]
          rfl
      · have he : finalRecordOf ((lineStates (preSpawn v title fp) chunks).getLastD
            (preSpawn v title fp)) ExitOutcome.timedOut aq qm =
            errorRecord ((lineStates (preSpawn v title fp) chunks).getLastD
              (preSpawn v title fp)) "Download timeout" := rfl
        rw [he]
        refine ⟨fun h => absurd h (by simp [errorRecord]), fun hp => ?_⟩
        have h99 := hlast.1
        have : ((lineStates (preSpawn v title fp) chunks).getLastD
            (preSpawn v title fp)).progress = 100 := by
          simpa [errorRecord] using hp
        rw [this] at h99
        exact absurd h99 (by norm_num)

/-- Witness for the progress/completed invariant at a concrete run. -/
theorem progress_clamp_completed_invariant_witness :
    (applyStdoutChunk (preSpawn "zzz98765432" "W" "downloads/W.mp4")
        "[download]  42.5%").progress ≤ 99 ∧
    (applyStdoutChunk (preSpawn "zzz98765432" "W" "downloads/W.mp4")
        "[download]  42.5%").status = Status.downloading :=
  (progress_clamp_completed_invariant "zzz98765432" "W" "downloads/W.mp4"
      ["[download]  42.5%"] (ExitOutcome.exited 0) "720p" true).1 _
    (by simp [lineStates])

/-- C7 counterexample: a newly created job record's initial status is
    `processing`, not `queued` as the claim states. -/
theorem new_record_not_queued :
    (downloadFromUrlStart [] "abc12345678" 5 false).2 =
      [("abc12345678_5", initialRecord "abc12345678")] ∧
    (initialRecord "abc12345678").status = Status.processing ∧
    (initialRecord "abc12345678").status ≠ Status.queued := by decide

/-- Along a run of `downloading` states, appending a final state below the
    `seqPair` relation keeps the status chain valid. -/
theorem chain_seqPair_const (f : Status) (hdf : seqPair Status.downloading f) :
    ∀ (l : List DownloadProgress), (∀ x ∈ l, x.status = Status.downloading) →
      List.Chain' seqPair
        (Status.downloading :: (l.map (fun s => s.status) ++ [f])) := by
  intro l
  induction l with
  | nil =>
    intro _
    exact List.chain'_cons.mpr ⟨hdf, by simp⟩
  | cons x t ih =>
    intro hall
    have hx : x.status = Status.downloading := hall x (by simp)
    simp only [List.map_cons, List.cons_append, hx]
    refine List.chain'_cons.mpr ⟨Or.inl rfl, ?_⟩
    exact ih (fun y hy => hall y (by simp [hy]))

/-- C7 amended: every newly created job starts as `processing` (never
    `queued`).  The code checks no status at any mutation site: the
    pre-spawn update always sets `downloading`, the close handler always
    sets `completed`, the catch block always sets `error`, stdout chunks
    preserve the status, and read-repair of a record with a stored file path
    always resets to `queued` — so no mutation ever returns a record to
    `processing`, a mid-download read-repair makes `queued` to `completed`
    (and `queued` to `error`) realizable status changes, and a run with no
    interleaved read-repair follows `processing` to `downloading` to
    `completed` or `error`. -/
theorem statemachine_amended :
    (∀ v, (initialRecord v).status = Status.processing) ∧
    (∀ r r', RecStep r r' →
      (r'.status = r.status ∨ r'.status = Status.downloading ∨
        r'.status = Status.completed ∨ r'.status = Status.error ∨
        r'.status = Status.queued) ∧
      (r'.status = Status.processing → r.status = Status.processing)) ∧
    (∀ r aq qm,
      RecStep (requeueRecord r) (completeRecord (requeueRecord r) aq qm) ∧
      (requeueRecord r).status = Status.queued ∧
      (completeRecord (requeueRecord r) aq qm).status = Status.completed) ∧
    (∀ v title fp chunks exit aq qm,
      List.Chain' seqPair
        ((recordStates v title fp chunks exit aq qm).map (fun s => s.status))) := by
  refine ⟨fun v => rfl, ?_, ?_, ?_⟩
  · intro r r' h
    cases h with
    | title t =>
      exact ⟨Or.inl rfl, fun hp => hp⟩
    | start fp =>
      exact ⟨Or.inr (Or.inl rfl), fun hp => Status.noConfusion hp⟩
    | chunk out =>
      refine ⟨Or.inl (applyStdoutChunk_status r out), fun hp => ?_⟩
      rw [applyStdoutChunk_status] at hp
      exact hp
    | complete aq qm =>
      exact ⟨Or.inr (Or.inr (Or.inl rfl)), fun hp => Status.noConfusion hp⟩
    | fail msg =>
      exact ⟨Or.inr (Or.inr (Or.inr (Or.inl rfl))),
        fun hp => Status.noConfusion hp⟩
    | repair hfp =>
      exact ⟨Or.inr (Or.inr (Or.inr (Or.inr rfl))),
        fun hp => Status.noConfusion hp⟩
  · intro r aq qm
    exact ⟨RecStep.complete (requeueRecord r) aq qm, rfl, rfl⟩
  · intro v title fp chunks exit aq qm
    have inv := lineStates_inv fp chunks (preSpawn v title fp)
      (by rw [show (preSpawn v title fp).progress = 0 from rfl]; norm_num)
      rfl rfl
    have hfs : (finalRecordOf ((lineStates (preSpawn v title fp) chunks).getLastD
          (preSpawn v title fp)) exit aq qm).status = Status.completed ∨
        (finalRecordOf ((lineStates (preSpawn v title fp) chunks).getLastD
          (preSpawn v title fp)) exit aq qm).status = Status.error := by
      rcases exit with c | _
      · by_cases hc : c = 0
        · subst hc
          left
          rw [finalRecordOf, if_pos rfl]
          rfl
        · right
          rw [finalRecordOf, if_neg hc]
          rfl
      · right
        rfl
    have hseq : seqPair Status.downloading
        (finalRecordOf ((lineStates (preSpawn v title fp) chunks).getLastD
          (preSpawn v title fp)) exit aq qm).status := by
      rcases hfs with h | h <;> rw [h]
      · exact Or.inr (Or.inr ⟨rfl, Or.inl rfl⟩)
      · exact Or.inr (Or.inr ⟨rfl, Or.inr rfl⟩)
    rw [recordStates]
    simp only [List.map_cons, List.map_append, List.map_nil]
    have h0 : (initialRecord v).status = Status.processing := rfl
    have h1 : (withTitle (initialRecord v) title).status = Status.processing := rfl
    have h2 : (preSpawn v title fp).status = Status.downloading := rfl
    rw [h0, h1, h2]
    refine List.chain'_cons.mpr ⟨Or.inl rfl, List.chain'_cons.mpr
      ⟨Or.inr (Or.inl ⟨rfl, rfl⟩), ?_⟩⟩
    exact chain_seqPair_const _ hseq _ (fun x hx => (inv x hx).2.1)

/-- Witness for the amended state machine: the unguarded completion write
    applied to a record that read-repair has just reset to `queued`. -/
theorem statemachine_amended_witness :
    ((completeRecord (requeueRecord (preSpawn "v" "t" "downloads/f.mp4"))
        "720p" true).status =
          (requeueRecord (preSpawn "v" "t" "downloads/f.mp4")).status ∨
      (completeRecord (requeueRecord (preSpawn "v" "t" "downloads/f.mp4"))
        "720p" true).status = Status.downloading ∨
      (completeRecord (requeueRecord (preSpawn "v" "t" "downloads/f.mp4"))
        "720p" true).status = Status.completed ∨
      (completeRecord (requeueRecord (preSpawn "v" "t" "downloads/f.mp4"))
        "720p" true).status = Status.error ∨
      (completeRecord (requeueRecord (preSpawn "v" "t" "downloads/f.mp4"))
        "720p" true).status = Status.queued) ∧
    ((completeRecord (requeueRecord (preSpawn "v" "t" "downloads/f.mp4"))
        "720p" true).status = Status.processing →
      (requeueRecord (preSpawn "v" "t" "downloads/f.mp4")).status =
        Status.processing) :=
  statemachine_amended.2.1 (requeueRecord (preSpawn "v" "t" "downloads/f.mp4"))
    (completeRecord (requeueRecord (preSpawn "v" "t" "downloads/f.mp4"))
      "720p" true)
    (RecStep.complete (requeueRecord (preSpawn "v" "t" "downloads/f.mp4"))
      "720p" true)

/-- C8 counterexample: when the subprocess emits a lower percentage, the
    stored progress sequence decreases while the status stays `downloading`
    and without any reset to 0: the claimed monotonicity does not hold. -/
theorem progress_decreases_counterexample :
    ((lineStates c8Start ["[download]  50.0%", "[download]  10.0%"]).map
        (fun s => s.progress)) = [50, 10] ∧
    (10 : Rat) < 50 ∧ (10 : Rat) ≠ 0 ∧
    (∀ s ∈ lineStates c8Start ["[download]  50.0%", "[download]  10.0%"],
        s.status = Status.downloading) := by decide

/-- Replacing the head of a nondecreasing chain by a smaller value keeps it
    a nondecreasing chain. -/
theorem chain_le_replace_head {a b : Rat} {l : List Rat} (hab : a ≤ b)
    (h : List.Chain' (· ≤ ·) (b :: l)) : List.Chain' (· ≤ ·) (a :: l) := by
  cases l with
  | nil => simp
  | cons c t =>
    rw [List.chain'_cons] at h ⊢
    exact ⟨hab.trans h.1, h.2⟩

/-- C8 amended: each stored progress value while `downloading` is the parsed
    percentage clamped to at most 99; the stored sequence is non-decreasing
    whenever the percentages emitted by the subprocess are non-decreasing
    (monotonicity is not enforced against the subprocess output), and the
    explicit reset to 0 accompanies the transition back to `queued`. -/
theorem progress_monotone_amended (r : DownloadProgress) (chunks : List String)
    (h99 : r.progress ≤ 99)
    (hchain : List.Chain' (· ≤ ·) (r.progress :: chunks.filterMap parseProgressOut)) :
    List.Chain' (· ≤ ·)
      (r.progress :: (lineStates r chunks).map (fun s => s.progress)) ∧
    (requeueRecord r).progress = 0 ∧ (requeueRecord r).status = Status.queued := by
  refine ⟨?_, rfl, rfl⟩
  have main : ∀ (cs : List String) (q : DownloadProgress), q.progress ≤ 99 →
      List.Chain' (· ≤ ·) (q.progress :: cs.filterMap parseProgressOut) →
      List.Chain' (· ≤ ·)
        (q.progress :: (lineStates q cs).map (fun s => s.progress)) := by
    intro cs
    induction cs with
    | nil =>
      intro q _ _
      simp [lineStates]
    | cons c cs ih =>
      intro q hq hch
      rw [lineStates, List.map_cons]
      rcases hp : parseProgressOut c with _ | p
      · have heq : (applyStdoutChunk q c).progress = q.progress := by
          rw [applyStdoutChunk_progress, hp]
        have hch2 : List.Chain' (· ≤ ·)
            ((applyStdoutChunk q c).progress :: cs.filterMap parseProgressOut) := by
          rw [heq]
          simpa [List.filterMap_cons, hp] using hch
        have htail := ih (applyStdoutChunk q c) (by rw [heq]; exact hq) hch2
        exact List.chain'_cons.mpr ⟨le_of_eq heq.symm, htail⟩
      · have heq : (applyStdoutChunk q c).progress = jsMin p 99 := by
          rw [applyStdoutChunk_progress, hp]
        have hch' : List.Chain' (· ≤ ·)
            (q.progress :: p :: cs.filterMap parseProgressOut) := by
          simpa [List.filterMap_cons, hp] using hch
        have h1 : q.progress ≤ p := (List.chain'_cons.mp hch').1
        have htl : List.Chain' (· ≤ ·) (p :: cs.filterMap parseProgressOut) :=
          (List.chain'_cons.mp hch').2
        have hch2 : List.Chain' (· ≤ ·)
            ((applyStdoutChunk q c).progress :: cs.filterMap parseProgressOut) := by
          rw [heq]
          exact chain_le_replace_head (jsMin_le_left _ _) htl
        have htail := ih (applyStdoutChunk q c)
          (by rw [heq]; exact jsMin_le_right _ _) hch2
        refine List.chain'_cons.mpr ⟨?_, htail⟩
        rw [heq]
        exact le_jsMin h1 hq
  exact main chunks r h99 hchain

/-- Witness for the amended monotonicity theorem at a concrete run. -/
theorem progress_monotone_amended_witness :
    List.Chain' (· ≤ ·) (c8Start.progress ::
      (lineStates c8Start ["[download]  10.0%", "[download]  50.0%"]).map
        (fun s => s.progress)) :=
  (progress_monotone_amended c8Start ["[download]  10.0%", "[download]  50.0%"]
    (by decide)
    (by
      have hl : (["[download]  10.0%", "[download]  50.0%"].filterMap
          parseProgressOut) = [(10 : Rat), 50] := by decide
      have h0 : c8Start.progress = 0 := rfl
      rw [hl, h0]
      refine List.chain'_cons.mpr ⟨by norm_num, List.chain'_cons.mpr ⟨by norm_num, ?_⟩⟩
      simp)).1

/-- C3 evaluation: the subprocess is spawned once, before the retry loop;
    when it exits nonzero, the two retries re-await the same already-closed
    process and end in the 600s timeout, so only one launch ever occurs (not
    three), the inter-attempt delays are 5000ms and 10000ms, and the job ends
    in `error` with the message of the final attempt's timeout rather than
    one derived from a relaunched subprocess. -/
theorem retry_never_relaunches :
    downloadAttemptRun (ExitOutcome.exited 1) =
      { launches := 1, waits := [5000, 10000],
        result := RunResult.failed "Download timeout" } ∧
    (downloadAttemptRun (ExitOutcome.exited 1)).launches ≠ 3 ∧
    (runFinalRecord c3Start (ExitOutcome.exited 1) "720p" true).status =
      Status.error ∧
    (runFinalRecord c3Start (ExitOutcome.exited 1) "720p" true).message =
      some "Download timeout" := by decide

/-- C9 evaluation: for a valid request the transport handler's response is
    the last action, emitted only after the subprocess close event (the
    handler awaits the whole download), and a post-creation failure is
    forwarded across the transport boundary as an HTTP 500 rather than being
    recorded only on the job record; only the missing-url validation answers
    directly with a 400. -/
theorem download_response_after_completion :
    downloadHandler (some "https://youtu.be/abcdefghijk") "abcdefghijk_7"
        (ExitOutcome.exited 0) =
      [HttpAction.spawned, HttpAction.processClosed 0,
       HttpAction.jsonResponse "abcdefghijk_7"] ∧
    downloadHandler (some "https://youtu.be/abcdefghijk") "abcdefghijk_7"
        (ExitOutcome.exited 1) =
      [HttpAction.spawned, HttpAction.processClosed 1, HttpAction.slept 5000,
       HttpAction.slept 10000, HttpAction.errorResponse 500 "Download timeout"] ∧
    downloadHandler none "x" (ExitOutcome.exited 0) =
      [HttpAction.errorResponse 400 "YouTube URL is required"] := by decide

end YTD
